import Mathlib

/-
Verification development for the iMultiwfn descriptor parser
(helper/descriptors.py).  The Python module is shallowly embedded:

* a report is a list of lines, each line a `List Char`;
* Python `str.split(sep)` / `str.split()` / `str.strip()` / `in` /
  `list.index` / slicing and indexing are modelled by executable
  functions below, with Python exceptions (IndexError, ValueError,
  TypeError, AttributeError) modelled by `Except Err`;
* Python `float(...)` / `int(...)` are modelled over `ℚ` / `ℤ` on the
  sign/digits/dot/exponent fragment of their grammar (the reports only
  ever contain such literals; `inf`/`nan`/underscores are not modelled);
* the handful of regular expressions in the source all have the rigid
  shape "literal, \s+, character-class run" (plus a word boundary for
  the CDFT patterns); on such patterns Python's leftmost greedy search
  is the deterministic maximal-run scan implemented here.
-/

/-- Python exception kinds that can escape the parsing code. -/
inductive Err
  | indexError
  | valueError
  | typeError
  | attributeError
deriving DecidableEq, Repr

/-- Shorthand turning a string literal into the character list we compute with. -/
def L (s : String) : List Char := s.data

/-- Python `sub in s` (substring containment) for a fixed pattern. -/
def containsL (pat : List Char) : List Char → Bool
  | [] => pat.isEmpty
  | c :: rest => pat.isPrefixOf (c :: rest) || containsL pat rest

/-- Python `s.split(sep)` for a non-empty separator `c0 :: cs`:
leftmost, non-overlapping.  `fuel` bounds the recursion; `fuel = s.length`
is always enough because each step consumes at least one character. -/
def splitGo (c0 : Char) (cs : List Char) : Nat → List Char → List (List Char)
  | 0, s => [s]
  | _ + 1, [] => [[]]
  | fuel + 1, c :: rest =>
    if (c0 :: cs).isPrefixOf (c :: rest) then
      [] :: splitGo c0 cs fuel (rest.drop cs.length)
    else
      match splitGo c0 cs fuel rest with
      | [] => [[c]]
      | h :: t => (c :: h) :: t

/-- Python `s.split(sep)` (the separators in the source are never empty). -/
def splitS (sep : String) (s : List Char) : List (List Char) :=
  match sep.data with
  | [] => [s]
  | c0 :: cs => splitGo c0 cs s.length s

/-- Python `s.split()` (whitespace split, dropping empty fields);
fueled like `splitGo`. -/
def wsSplitGo : Nat → List Char → List (List Char)
  | 0, _ => []
  | _ + 1, [] => []
  | fuel + 1, c :: rest =>
    if c.isWhitespace then wsSplitGo fuel rest
    else
      (c :: rest.takeWhile (fun x => !x.isWhitespace)) ::
        wsSplitGo fuel (rest.dropWhile (fun x => !x.isWhitespace))

/-- Python `s.split()`. -/
def wsSplit (s : List Char) : List (List Char) :=
  wsSplitGo s.length s

/-- Python `s.strip()`. -/
def pyStrip (s : List Char) : List Char :=
  ((s.dropWhile Char.isWhitespace).reverse.dropWhile Char.isWhitespace).reverse

/-- Numeric value of a digit run. -/
def digitsVal (ds : List Char) : Nat :=
  ds.foldl (fun a c => a * 10 + (c.toNat - 48)) 0

/-- `10 ^ n` over `Nat`, by plain recursion (kernel-reducible). -/
def pow10 : Nat → Nat
  | 0 => 1
  | n + 1 => pow10 n * 10

/-- Rational multiplication through `mkRat` (kernel-reducible, unlike the
`Rat.mul` used by the `*` instance). -/
def qmul (a b : ℚ) : ℚ :=
  mkRat (a.num * b.num) (a.den * b.den)

/-- `10 ^ e` over `ℚ` for an integer exponent. -/
def zpow10 (e : Int) : ℚ :=
  if e < 0 then mkRat 1 (pow10 (-e).toNat) else mkRat (Int.ofNat (pow10 e.toNat)) 1

/-- Exponent tail of a Python float literal (`e`/`E`, optional sign, digits);
`some 0` on empty input, `none` when the tail is not a valid exponent. -/
def parseExpTail : List Char → Option Int
  | [] => some 0
  | c :: rest =>
    if c = 'e' ∨ c = 'E' then
      match rest with
      | '+' :: ds =>
        if !ds.isEmpty && ds.all Char.isDigit then some (digitsVal ds) else none
      | '-' :: ds =>
        if !ds.isEmpty && ds.all Char.isDigit then some (-(digitsVal ds : Int)) else none
      | ds =>
        if !ds.isEmpty && ds.all Char.isDigit then some (digitsVal ds) else none
    else none

/-- The rational value of integer digits `ip` and fraction digits `fp`. -/
def qOfDigits (ip fp : List Char) : ℚ :=
  mkRat (Int.ofNat (digitsVal ip * pow10 fp.length + digitsVal fp)) (pow10 fp.length)

/-- Mantissa of a Python float literal: digits, optionally a dot and more
digits, at least one digit overall; returns the value and the unconsumed rest. -/
def parseMantissa (s : List Char) : Option (ℚ × List Char) :=
  let ip := s.takeWhile Char.isDigit
  let r1 := s.dropWhile Char.isDigit
  match r1 with
  | '.' :: r2 =>
    let fp := r2.takeWhile Char.isDigit
    let r3 := r2.dropWhile Char.isDigit
    if ip.isEmpty && fp.isEmpty then none
    else some (qOfDigits ip fp, r3)
  | _ =>
    if ip.isEmpty then none else some (qOfDigits ip [], r1)

/-- Python `float(s)` on the literal fragment used by the reports. -/
def pyFloatL (s : List Char) : Option ℚ :=
  let t := pyStrip s
  let su : Int × List Char :=
    match t with
    | '+' :: r => (1, r)
    | '-' :: r => (-1, r)
    | r => (1, r)
  match parseMantissa su.2 with
  | none => none
  | some (m, rest) =>
    match parseExpTail rest with
    | none => none
    | some e => some (qmul (mkRat su.1 1) (qmul m (zpow10 e)))

/-- Python `int(s)`. -/
def pyIntL (s : List Char) : Option Int :=
  match pyStrip s with
  | '+' :: ds =>
    if !ds.isEmpty && ds.all Char.isDigit then some (digitsVal ds) else none
  | '-' :: ds =>
    if !ds.isEmpty && ds.all Char.isDigit then some (-(digitsVal ds : Int)) else none
  | ds =>
    if !ds.isEmpty && ds.all Char.isDigit then some ((digitsVal ds : Int)) else none

/-- Python list indexing `l[i]` for a non-negative index (raises IndexError). -/
def pyAt {α : Type} (l : List α) (i : Nat) : Except Err α :=
  match l.get? i with
  | some a => .ok a
  | none => .error .indexError

/-- `float(...)` as used in the source: raises ValueError on bad input. -/
def floatE (s : List Char) : Except Err ℚ :=
  match pyFloatL s with
  | some q => .ok q
  | none => .error .valueError

/-- `int(...)` as used in the source: raises ValueError on bad input. -/
def intE (s : List Char) : Except Err Int :=
  match pyIntL s with
  | some n => .ok n
  | none => .error .valueError

/-- Normalisation of one Python slice bound against a list of length `n`. -/
def pyNorm (n : Nat) (i : Int) : Nat :=
  if i < 0 then ((n : Int) + i).toNat else min i.toNat n

/-- Python slice `l[a:b]` (step 1), with Python's clamping semantics. -/
def pySlice {α : Type} (l : List α) (a b : Int) : List α :=
  (l.take (pyNorm l.length b)).drop (pyNorm l.length a)

/-- First index of an element equal to `x` (for Python `list.index`). -/
def pyFindIdx (x : List Char) : List (List Char) → Option Nat
  | [] => none
  | y :: ys => if y = x then some 0 else (pyFindIdx x ys).map (· + 1)

/-- Python `lines.index(line)`: first occurrence, ValueError when absent. -/
def pyListIndex (lines : List (List Char)) (x : List Char) : Except Err Nat :=
  match pyFindIdx x lines with
  | some i => .ok i
  | none => .error .valueError

/-- Python `enumerate`, starting at `n`. -/
def pyEnumFrom {α : Type} (n : Nat) : List α → List (Nat × α)
  | [] => []
  | a :: as => (n, a) :: pyEnumFrom (n + 1) as

/-- One attempt of `re.search(lit + r"\s+([cls]+)", s)` at the current
position: the literal, then at least one whitespace, then a maximal
non-empty run of the class, which is the captured group. -/
def reMatchAt (lit : List Char) (cls : Char → Bool) (s : List Char) : Option (List Char) :=
  if lit.isPrefixOf s then
    let r := s.drop lit.length
    let sp := r.takeWhile Char.isWhitespace
    let r2 := r.dropWhile Char.isWhitespace
    let cap := r2.takeWhile cls
    if sp.isEmpty || cap.isEmpty then none else some cap
  else none

/-- `re.search` for the patterns of the source (literal, `\s+`, class run):
leftmost position at which the whole pattern matches. -/
def reSearch (lit : List Char) (cls : Char → Bool) : List Char → Option (List Char)
  | [] => none
  | c :: rest =>
    match reMatchAt lit cls (c :: rest) with
    | some cap => some cap
    | none => reSearch lit cls rest

/-- Character class `[\d.-]`. -/
def clsNumDotDash (c : Char) : Bool :=
  c.isDigit || c = '.' || c = '-'

/-- Character class `[\d.]`. -/
def clsNumDot (c : Char) : Bool :=
  c.isDigit || c = '.'

/-- Python `\w` on the ASCII fragment appearing in the reports. -/
def isWordChar (c : Char) : Bool :=
  c.isAlphanum || c = '_'

/-- Python `str.splitlines()` on the line breaks that occur in the
reports (`\n`, `\r\n`, `\r`); `acc` is the current line, reversed. -/
def splitLinesGo (acc : List Char) : List Char → List (List Char)
  | [] => if acc.isEmpty then [] else [acc.reverse]
  | '\r' :: '\n' :: rest => acc.reverse :: splitLinesGo [] rest
  | '\n' :: rest => acc.reverse :: splitLinesGo [] rest
  | '\r' :: rest => acc.reverse :: splitLinesGo [] rest
  | c :: rest => splitLinesGo (c :: acc) rest

/-- Python `contents.splitlines()`. -/
def pySplitlines (s : List Char) : List (List Char) :=
  splitLinesGo [] s

/-- Effectful `map` over `Except`, as a Python for-loop with `append`. -/
def mapME {α β : Type} (f : α → Except Err β) : List α → Except Err (List β)
  | [] => .ok []
  | a :: as => do
    let b ← f a
    let bs ← mapME f as
    .ok (b :: bs)


/-
Data model: `Molecule` as in the source; the `descriptors` dictionary of
`_get_other_descriptors` is modelled as a function from the fixed key set
`DField` to `DVal` (None / float / int / Molecule), exactly the values a
key can hold in the Python dict.
-/

/-- The `Molecule` class of the source. -/
structure Molecule where
  name : Option (List Char)
  atoms : List (List Char)
  charges : List ℚ
deriving DecidableEq, Repr

/-- The plain dictionary produced by `Molecule.to_dict`. -/
structure MolDict where
  name : Option (List Char)
  atoms : List (List Char)
  charges : List ℚ
deriving DecidableEq, Repr

/-- `Molecule.to_dict`. -/
def Molecule.to_dict (m : Molecule) : MolDict :=
  ⟨m.name, m.atoms, m.charges⟩

/-- `Molecule.from_dict`. -/
def Molecule.from_dict (d : MolDict) : Molecule :=
  ⟨d.name, d.atoms, d.charges⟩

/-- The keys of the `descriptors` dictionary of `_get_other_descriptors`. -/
inductive DField
  | atom_num | total_energy | HOMO | LUMO | HOMO_LUMO_gap | radius_gyration
  | mass | diameter | MPP | SDP | surface_area | volume | sphericity
  | dipole_moment | MPI | ESP_min | ESP_max
  | ALIE_min | ALIE_max | ALIE_avg | LEAE_min | LEAE_max
  | LEA_min | LEA_max | LEA_avg
  | Hirshfeld_charge | ADCH_charge | RESP_charge | spin_population
  | electron_density | Laplacian_electron_density | kinetic_energy_density
deriving DecidableEq, Repr

/-- A value held by the `descriptors` dictionary: `None`, a float, an int,
or a `Molecule`. -/
inductive DVal
  | none
  | q (v : ℚ)
  | i (n : Int)
  | mol (m : Molecule)
deriving DecidableEq, Repr

/-- The `descriptors` dictionary. -/
def Descr : Type := DField → DVal

/-- The initial dictionary: every key mapped to `None`. -/
def descr0 : Descr := fun _ => DVal.none

/-- Dictionary update `descriptors[f] = v`. -/
def dSet (d : Descr) (f : DField) (v : DVal) : Descr :=
  Function.update d f v

/- Anchor strings, copied verbatim from the source. -/

def anchorAtoms : List Char := L " Atoms:  "
def anchorWeight : List Char := L " Molecule weight:      "
def anchorTotalEnergy : List Char := L " Total energy:    "
def anchorGap : List Char := L "HOMO-LUMO gap:"
def anchorRadius : List Char := L " Radius of gyration"
def anchorMPP : List Char := L " Molecular planarity parameter (MPP) is"
def anchorSDP : List Char := L " Span of deviation from plane (SDP) is"
def anchorDiameter : List Char := L " Diameter of the system"
def anchorSphericity : List Char := L " Sphericity"
def anchorDipole : List Char := L " Magnitude of molecular dipole moment (a.u.&Debye)"
def anchorSurf : List Char :=
  L "       ================= Summary of surface analysis ================="
def anchorCitation : List Char := L " Citation of ADCH: Tian Lu, Feiwu Chen"
def anchorNote : List Char :=
  L " Note: The values shown after \"Corrected charge\" are ADCH charges"
def anchorStage2 : List Char :=
  L " Stage 2 of standard RESP fitting is skipped since no atom needs to be fitted"
def anchorPopulation : List Char := L " Population of atoms"
def anchorFuzzy : List Char := L "   Atomic space        Value  "

/-- The condition under which the source can assign to key `f`
(each key's own `if`-branch condition). -/
def trigger : DField → List Char → Bool
  | .atom_num, l => containsL anchorAtoms l
  | .mass, l => containsL anchorWeight l
  | .total_energy, l => containsL anchorTotalEnergy l
  | .HOMO, l => containsL (L "Orbital") l && containsL (L "HOMO") l
  | .LUMO, l => containsL (L "Orbital") l && containsL (L "LUMO") l
  | .HOMO_LUMO_gap, l => containsL anchorGap l
  | .radius_gyration, l => containsL anchorRadius l
  | .MPP, l => containsL anchorMPP l
  | .SDP, l => containsL anchorSDP l
  | .diameter, l => containsL anchorDiameter l
  | .sphericity, l => containsL anchorSphericity l
  | .dipole_moment, l => containsL anchorDipole l
  | .volume, l => containsL anchorSurf l
  | .surface_area, l => containsL anchorSurf l
  | .ESP_min, l => containsL anchorSurf l
  | .ESP_max, l => containsL anchorSurf l
  | .MPI, l => containsL anchorSurf l
  | .ALIE_min, l => containsL anchorSurf l
  | .ALIE_max, l => containsL anchorSurf l
  | .ALIE_avg, l => containsL anchorSurf l
  | .LEA_min, l => containsL anchorSurf l
  | .LEA_max, l => containsL anchorSurf l
  | .LEA_avg, l => containsL anchorSurf l
  | .LEAE_min, l => containsL anchorSurf l
  | .LEAE_max, l => containsL anchorSurf l
  | .Hirshfeld_charge, l => containsL anchorCitation l
  | .ADCH_charge, l => containsL anchorNote l
  | .RESP_charge, l => containsL anchorStage2 l
  | .spin_population, l => containsL anchorPopulation l
  | .electron_density, l => containsL anchorFuzzy l
  | .Laplacian_electron_density, l => containsL anchorFuzzy l
  | .kinetic_energy_density, l => containsL anchorFuzzy l

/- Scalar extractors (the bodies of the branches of the first loop). -/

/-- `int(line.split(': ')[1].split(',')[0])`. -/
def exAtomNum (line : List Char) : Except Err Int := do
  let s1 ← pyAt (splitS ": " line) 1
  let s2 ← pyAt (splitS "," s1) 0
  intE s2

/-- `float(line.split(': ')[1].split(' Da')[0])`. -/
def exMass (line : List Char) : Except Err ℚ := do
  let s1 ← pyAt (splitS ": " line) 1
  let s2 ← pyAt (splitS " Da" s1) 0
  floatE s2

/-- `float(line.split(': ')[1].split('Hartree')[0])`. -/
def exTotalEnergy (line : List Char) : Except Err ℚ := do
  let s1 ← pyAt (splitS ": " line) 1
  let s2 ← pyAt (splitS "Hartree" s1) 0
  floatE s2

/-- `float(re.search(lit + r"\s+([cls]+)", line).group(1))`; a failed search
raises AttributeError (`None.group`). -/
def exSearchNum (lit : String) (cls : Char → Bool) (line : List Char) : Except Err ℚ :=
  match reSearch (L lit) cls line with
  | none => .error .attributeError
  | some cap => floatE cap

/-- One line of the scalar pass (the first `for line in lines` loop). -/
def scalarStep (d : Descr) (line : List Char) : Except Err Descr :=
  if containsL anchorAtoms line then
    Except.map (fun n => dSet d .atom_num (DVal.i n)) (exAtomNum line)
  else if containsL anchorWeight line then
    Except.map (fun v => dSet d .mass (DVal.q v)) (exMass line)
  else if containsL anchorTotalEnergy line then
    Except.map (fun v => dSet d .total_energy (DVal.q v)) (exTotalEnergy line)
  else if containsL (L "Orbital") line && containsL (L "HOMO") line then
    Except.map (fun v => dSet d .HOMO (DVal.q v)) (exSearchNum "energy:" clsNumDotDash line)
  else if containsL (L "Orbital") line && containsL (L "LUMO") line then
    Except.map (fun v => dSet d .LUMO (DVal.q v)) (exSearchNum "energy:" clsNumDotDash line)
  else if containsL anchorGap line then
    Except.map (fun v => dSet d .HOMO_LUMO_gap (DVal.q v)) (exSearchNum "gap:" clsNumDotDash line)
  else if containsL anchorRadius line then
    Except.map (fun v => dSet d .radius_gyration (DVal.q v)) (exSearchNum ":" clsNumDot line)
  else if containsL anchorMPP line then
    Except.map (fun v => dSet d .MPP (DVal.q v)) (exSearchNum "is" clsNumDot line)
  else if containsL anchorSDP line then
    Except.map (fun v => dSet d .SDP (DVal.q v)) (exSearchNum "is" clsNumDot line)
  else if containsL anchorDiameter line then
    Except.map (fun v => dSet d .diameter (DVal.q v)) (exSearchNum "system:" clsNumDot line)
  else if containsL anchorSphericity line then
    Except.map (fun v => dSet d .sphericity (DVal.q v)) (exSearchNum ":" clsNumDot line)
  else if containsL anchorDipole line then
    Except.map (fun v => dSet d .dipole_moment (DVal.q v)) (exSearchNum ":" clsNumDot line)
  else .ok d

/-- A Python for-loop over lines threading the dictionary, stopping at the
first exception. -/
def foldE {α : Type} (step : Descr → α → Except Err Descr) :
    Descr → List α → Except Err Descr
  | d, [] => .ok d
  | d, a :: as => do
    let d' ← step d a
    foldE step d' as

/-- `0.529177249` (Bohr in Angstrom), as in the source's unit conversions. -/
def bohr : ℚ := mkRat 529177249 1000000000

/-- `0.529177249 ** 3`. -/
def bohr3 : ℚ := qmul bohr (qmul bohr bohr)

/-- `0.529177249 ** 2`. -/
def bohr2 : ℚ := qmul bohr bohr

/-- The body executed for the `rank`-th occurrence (1-based) of the
surface-analysis heading found at line index `idx`. -/
def espBranch (lines : List (List Char)) (idx rank : Nat) (d : Descr) : Except Err Descr :=
  if rank = 1 then do
    let line ← pyAt lines (idx + 2)
    let s1 ← pyAt (splitS "Volume: " line) 1
    let s2 ← pyAt (splitS "Bohr^3" s1) 0
    let v ← floatE s2
    let d1 := dSet d .volume (DVal.q (qmul v bohr3))
    let line2 ← pyAt lines (idx + 2 + 2)
    let t1 ← pyAt (splitS "Overall surface area: " line2) 1
    let t2 ← pyAt (splitS "Bohr^2" t1) 0
    let w ← floatE t2
    .ok (dSet d1 .surface_area (DVal.q (qmul w bohr2)))
  else if rank = 2 then do
    let line ← pyAt lines (idx + 4)
    let s1 ← pyAt (splitS " Minimal value:  " line) 1
    let s2 ← pyAt (splitS "kcal/mol   Maximal" s1) 0
    let v1 ← floatE s2
    let d1 := dSet d .ESP_min (DVal.q v1)
    let t1 ← pyAt (splitS "Maximal value: " line) 1
    let t2 ← pyAt (splitS "kcal/mol" t1) 0
    let v2 ← floatE t2
    let d2 := dSet d1 .ESP_max (DVal.q v2)
    let line2 ← pyAt lines (idx + 4 + 13)
    let u1 ← pyAt (splitS ":" line2) 1
    let u2 ← pyAt (splitS "eV" u1) 0
    let v3 ← floatE u2
    .ok (dSet d2 .MPI (DVal.q v3))
  else if rank = 3 then do
    let line ← pyAt lines (idx + 4)
    let s1 ← pyAt (splitS " Minimal value:  " line) 1
    let s2 ← pyAt (splitS "eV,  " s1) 0
    let v1 ← floatE s2
    let d1 := dSet d .ALIE_min (DVal.q v1)
    let t1 ← pyAt (splitS "Maximal value: " line) 1
    let t2 ← pyAt (splitS "eV" t1) 0
    let v2 ← floatE t2
    let d2 := dSet d1 .ALIE_max (DVal.q v2)
    let line2 ← pyAt lines (idx + 4 + 4)
    let u1 ← pyAt (splitS "value:" line2) 1
    let u2 ← pyAt (splitS "a.u. " u1) 0
    let v3 ← floatE u2
    .ok (dSet d2 .ALIE_avg (DVal.q v3))
  else if rank = 4 then do
    let line ← pyAt lines (idx + 4)
    let s1 ← pyAt (splitS " Minimal value:  " line) 1
    let s2 ← pyAt (splitS "eV,  " s1) 0
    let v1 ← floatE s2
    let d1 := dSet d .LEA_min (DVal.q v1)
    let t1 ← pyAt (splitS "Maximal value: " line) 1
    let t2 ← pyAt (splitS "eV" t1) 0
    let v2 ← floatE t2
    let d2 := dSet d1 .LEA_max (DVal.q v2)
    let line2 ← pyAt lines (idx + 4 + 4)
    let u1 ← pyAt (splitS "value:" line2) 1
    let u2 ← pyAt (splitS "a.u. " u1) 0
    let v3 ← floatE u2
    .ok (dSet d2 .LEA_avg (DVal.q v3))
  else if rank = 5 then do
    let line ← pyAt lines (idx + 4)
    let s1 ← pyAt (splitS " Minimal value:  " line) 1
    let s2 ← pyAt (splitS "eV,  " s1) 0
    let v1 ← floatE s2
    let d1 := dSet d .LEAE_min (DVal.q v1)
    let t1 ← pyAt (splitS "Maximal value: " line) 1
    let t2 ← pyAt (splitS "eV" t1) 0
    let v2 ← floatE t2
    .ok (dSet d1 .LEAE_max (DVal.q v2))
  else .ok d

/-- An occurrence-counting scan (`for idx, line in enumerate(lines)` with a
mutable counter incremented at every line containing the anchor). -/
def countLoop (branch : Nat → Nat → Descr → Except Err Descr) (anc : List Char) :
    List (Nat × List Char) → Nat → Descr → Except Err Descr
  | [], _, d => .ok d
  | p :: rest, c, d =>
    if containsL anc p.2 then do
      let d' ← branch p.1 (c + 1) d
      countLoop branch anc rest (c + 1) d'
    else countLoop branch anc rest c d

/-- The electrostatic-potential pass of `_get_other_descriptors`. -/
def espLoop (lines : List (List Char)) :
    List (Nat × List Char) → Nat → Descr → Except Err Descr :=
  countLoop (espBranch lines) anchorSurf

/- Per-atom row extractors (`_read_charge` / `_read_fuzzy` loop bodies). -/

/-- One RESP row: `parts[0] + parts[1]`, `float(parts[2])`. -/
def respRow (line : List Char) : Except Err (List Char × ℚ) := do
  let parts := wsSplit line
  let a ← pyAt parts 0
  let b ← pyAt parts 1
  let s ← pyAt parts 2
  let v ← floatE s
  .ok (a ++ b, v)

/-- One Hirshfeld row: `(parts[4] + parts[5]).strip()`, `float(parts[7])`. -/
def hirshRow (line : List Char) : Except Err (List Char × ℚ) := do
  let parts := wsSplit line
  let a ← pyAt parts 4
  let b ← pyAt parts 5
  let s ← pyAt parts 7
  let v ← floatE s
  .ok (pyStrip (a ++ b), v)

/-- One ADCH row: `parts[1] + ')'`, `float(parts[3])`. -/
def adchRow (line : List Char) : Except Err (List Char × ℚ) := do
  let parts := wsSplit line
  let a ← pyAt parts 1
  let s ← pyAt parts 3
  let v ← floatE s
  .ok (a ++ [')'], v)

/-- One spin-population row: `parts[1] + parts[2]`, `float(parts[4])`. -/
def spinRow (line : List Char) : Except Err (List Char × ℚ) := do
  let parts := wsSplit line
  let a ← pyAt parts 1
  let b ← pyAt parts 2
  let s ← pyAt parts 4
  let v ← floatE s
  .ok (a ++ b, v)

/-- One fuzzy-density row: `parts[0] + parts[1]`, `float(parts[2])`
(the same body for all three density descriptors in the source). -/
def fuzzyRow (line : List Char) : Except Err (List Char × ℚ) := do
  let parts := wsSplit line
  let a ← pyAt parts 0
  let b ← pyAt parts 1
  let s ← pyAt parts 2
  let v ← floatE s
  .ok (a ++ b, v)

/-- Builds the returned `Molecule(name=None, atoms, charges)` from row results. -/
def molOf (ps : List (List Char × ℚ)) : Molecule :=
  ⟨Option.none, ps.map Prod.fst, ps.map Prod.snd⟩

/-- `_read_charge(charge_lines, charge_type)`. -/
def readCharge (chargeLines : List (List Char)) (t : List Char) : Except Err Molecule :=
  if t = L "RESP" then Except.map molOf (mapME respRow chargeLines)
  else if t = L "Hirshfeld" then Except.map molOf (mapME hirshRow chargeLines)
  else if t = L "ADCH" then Except.map molOf (mapME adchRow chargeLines)
  else if t = L "spin" then Except.map molOf (mapME spinRow chargeLines)
  else .ok ⟨Option.none, [], []⟩

/-- `_read_fuzzy(contents, descriptor_name)`. -/
def readFuzzy (contents : List (List Char)) (name : List Char) : Except Err Molecule :=
  if name = L "electron_density" then Except.map molOf (mapME fuzzyRow contents)
  else if name = L "Laplacian_electron_density" then Except.map molOf (mapME fuzzyRow contents)
  else if name = L "kinetic_energy_density" then Except.map molOf (mapME fuzzyRow contents)
  else .ok ⟨Option.none, [], []⟩

/-- Reading `descriptors['atom_num']` where an int is needed: Python raises
TypeError when the value is still `None` (`start_idx + None`). -/
def getAtomNum (d : Descr) : Except Err Int :=
  match d DField.atom_num with
  | DVal.i n => .ok n
  | _ => .error .typeError

/-- One line of the atom-descriptor pass (third loop of the source):
the window start is `lines.index(line) + offset` — the index of the first
line equal to the visited line. -/
def atomStep (lines : List (List Char)) (d : Descr) (line : List Char) : Except Err Descr :=
  if containsL anchorCitation line then do
    let i ← pyListIndex lines line
    let n ← getAtomNum d
    let m ← readCharge (pySlice lines ((i : Int) + 8) ((i : Int) + 8 + n)) (L "Hirshfeld")
    .ok (dSet d .Hirshfeld_charge (DVal.mol m))
  else if containsL anchorNote line then do
    let i ← pyListIndex lines line
    let n ← getAtomNum d
    let m ← readCharge (pySlice lines ((i : Int) + 6) ((i : Int) + 6 + n)) (L "ADCH")
    .ok (dSet d .ADCH_charge (DVal.mol m))
  else if containsL anchorStage2 line then do
    let i ← pyListIndex lines line
    let n ← getAtomNum d
    let m ← readCharge (pySlice lines ((i : Int) + 3) ((i : Int) + 3 + n)) (L "RESP")
    .ok (dSet d .RESP_charge (DVal.mol m))
  else if containsL anchorPopulation line then do
    let i ← pyListIndex lines line
    let n ← getAtomNum d
    let m ← readCharge (pySlice lines ((i : Int) + 1) ((i : Int) + 1 + n)) (L "spin")
    .ok (dSet d .spin_population (DVal.mol m))
  else .ok d

/-- The body executed for the `rank`-th occurrence (1-based) of the
fuzzy-space heading found at line index `idx`. -/
def fuzzyBranch (lines : List (List Char)) (idx rank : Nat) (d : Descr) : Except Err Descr :=
  if rank = 1 then do
    let n ← getAtomNum d
    let m ← readFuzzy (pySlice lines ((idx : Int) + 1) ((idx : Int) + 1 + n)) (L "electron_density")
    .ok (dSet d .electron_density (DVal.mol m))
  else if rank = 2 then do
    let n ← getAtomNum d
    let m ← readFuzzy (pySlice lines ((idx : Int) + 1) ((idx : Int) + 1 + n))
      (L "Laplacian_electron_density")
    .ok (dSet d .Laplacian_electron_density (DVal.mol m))
  else if rank = 3 then do
    let n ← getAtomNum d
    let m ← readFuzzy (pySlice lines ((idx : Int) + 1) ((idx : Int) + 1 + n))
      (L "kinetic_energy_density")
    .ok (dSet d .kinetic_energy_density (DVal.mol m))
  else .ok d

/-- The fuzzy-descriptor pass (fourth loop of the source). -/
def fuzzyLoop (lines : List (List Char)) :
    List (Nat × List Char) → Nat → Descr → Except Err Descr :=
  countLoop (fuzzyBranch lines) anchorFuzzy

/-- `_get_other_descriptors`, over the already-split list of lines:
scalar pass, then surface-analysis pass, then atom pass, then fuzzy pass. -/
def getOtherDescriptorsL (lines : List (List Char)) : Except Err Descr := do
  let d1 ← foldE scalarStep descr0 lines
  let d2 ← espLoop lines (pyEnumFrom 0 lines) 0 d1
  let d3 ← foldE (atomStep lines) d2 lines
  let d4 ← fuzzyLoop lines (pyEnumFrom 0 lines) 0 d3
  .ok d4

/-- `_get_other_descriptors(contents)` (`contents.splitlines()` first). -/
def getOtherDescriptors (contents : List Char) : Except Err Descr :=
  getOtherDescriptorsL (pySplitlines contents)

/- The CDFT report parser (`_get_cdft_descriptors`). -/

/-- The dictionary returned by `_get_cdft_descriptors`. -/
structure CdftDescr where
  electronegativity : Option ℚ
  chemical_potential : Option ℚ
  chemical_hardness : Option ℚ
  electrophilicity_index : Option ℚ
  nucleophilicity_index : Option ℚ
deriving DecidableEq, Repr

/-- One attempt of `re.search(r"\b" + name + r":\s+([-\d.]+)\s+\w+", data)`
at the current position; `prevOk` records the word-boundary state (start of
input, or previous character not a word character). -/
def cdftMatchAt (name : List Char) (prevOk : Bool) (s : List Char) : Option (List Char) :=
  if prevOk && (name ++ [':']).isPrefixOf s then
    let r := s.drop (name.length + 1)
    let sp1 := r.takeWhile Char.isWhitespace
    let r2 := r.dropWhile Char.isWhitespace
    let cap := r2.takeWhile clsNumDotDash
    let r3 := r2.dropWhile clsNumDotDash
    if sp1.isEmpty || cap.isEmpty then none
    else
      let sp2 := r3.takeWhile Char.isWhitespace
      let r4 := r3.dropWhile Char.isWhitespace
      if sp2.isEmpty then none
      else
        match r4 with
        | c :: _ => if isWordChar c then some cap else none
        | [] => none
  else none

/-- Leftmost search for the CDFT pattern, tracking the word boundary. -/
def cdftSearchAux (name : List Char) : Bool → List Char → Option (List Char)
  | _, [] => none
  | prevOk, c :: rest =>
    match cdftMatchAt name prevOk (c :: rest) with
    | some cap => some cap
    | none => cdftSearchAux name (!isWordChar c) rest

/-- `_find_descriptor(data, name)`: the captured group of the first match,
or `None`. -/
def cdftSearch (name : List Char) (s : List Char) : Option (List Char) :=
  cdftSearchAux name true s

/-- One entry of the search loop: `float(...)` of the captured group when a
match exists (which can raise ValueError), `None` otherwise. -/
def findD (contents name : List Char) : Except Err (Option ℚ) :=
  match cdftSearch name contents with
  | none => .ok none
  | some cap => Except.map some (floatE cap)

/-- `_get_cdft_descriptors(contents)`, with the searches performed in the
source's dictionary order. -/
def getCdftDescriptors (contents : List Char) : Except Err CdftDescr := do
  let a ← findD contents (L "Mulliken electronegativity")
  let b ← findD contents (L "Chemical potential")
  let c ← findD contents (L "Hardness (=fundamental gap)")
  let e ← findD contents (L "Electrophilicity index")
  let f ← findD contents (L "Nucleophilicity index")
  .ok ⟨a, b, c, e, f⟩

/- Projections used to state concrete evaluations. -/

/-- The value of one dictionary key in a parse result (`none` on exception). -/
def resField (x : Except Err Descr) (f : DField) : Option DVal :=
  match x with
  | .ok d => some (d f)
  | .error _ => none

/-- The exception of a parse result, when there is one. -/
def errOf {α : Type} : Except Err α → Option Err
  | .ok _ => none
  | .error e => some e

/-
The spec's declarative per-type token-layout table (Section 4.2), as a
refinement target for `_read_charge` / `_read_fuzzy`.
-/

/-- Modelled from the spec: how the atom label is built from the
whitespace tokens of a row. -/
inductive LabelRule
  | concat (i j : Nat) (trim : Bool)
  | closeParen (i : Nat)
deriving DecidableEq, Repr

/-- Modelled from the spec: one entry of the enumerated layout table. -/
structure RowLayout where
  label : LabelRule
  value : Nat
deriving DecidableEq, Repr

/-- Modelled from the spec: `RESP: tokens[0]+tokens[1] label / tokens[2] value`. -/
def respLayout : RowLayout := ⟨.concat 0 1 false, 2⟩

/-- Modelled from the spec: `Hirshfeld: tokens[4]+tokens[5] label (trimmed) / tokens[7] value`. -/
def hirshLayout : RowLayout := ⟨.concat 4 5 true, 7⟩

/-- Modelled from the spec: `ADCH: tokens[1]+")" label / tokens[3] value`. -/
def adchLayout : RowLayout := ⟨.closeParen 1, 3⟩

/-- Modelled from the spec: `spin: tokens[1]+tokens[2] label / tokens[4] value`. -/
def spinLayout : RowLayout := ⟨.concat 1 2 false, 4⟩

/-- Modelled from the spec: `fuzzy-density family: tokens[0]+tokens[1] label / tokens[2] value`. -/
def fuzzyLayout : RowLayout := ⟨.concat 0 1 false, 2⟩

/-- Modelled from the spec: the generic row extractor driven by a layout
table entry. -/
def applyLayout (ly : RowLayout) (line : List Char) : Except Err (List Char × ℚ) :=
  let parts := wsSplit line
  match ly.label with
  | .concat i j trim => do
    let a ← pyAt parts i
    let b ← pyAt parts j
    let s ← pyAt parts ly.value
    let v ← floatE s
    .ok (if trim then pyStrip (a ++ b) else a ++ b, v)
  | .closeParen i => do
    let a ← pyAt parts i
    let s ← pyAt parts ly.value
    let v ← floatE s
    .ok (a ++ [')'], v)

/-- The occurrence indices of an anchor over an enumerated line list. -/
def occsOf (anc : List Char) (ps : List (Nat × List Char)) : List Nat :=
  ps.filterMap fun p => if containsL anc p.2 then some p.1 else none

/-- The surface-analysis occurrence indices of a report. -/
def espOccs (lines : List (List Char)) : List Nat :=
  occsOf anchorSurf (pyEnumFrom 0 lines)

/-- Rank-indexed dispatch over an occurrence list: the `k`-th listed
occurrence is processed with rank `k` (1-based). -/
def rankFold (branch : Nat → Nat → Descr → Except Err Descr) :
    List Nat → Nat → Descr → Except Err Descr
  | [], _, d => .ok d
  | i :: is, c, d => do
    let d' ← branch i (c + 1) d
    rankFold branch is (c + 1) d'

/-- The fields written by the surface-analysis branch of each rank. -/
def touches (r : Nat) : List DField :=
  if r = 1 then [.volume, .surface_area]
  else if r = 2 then [.ESP_min, .ESP_max, .MPI]
  else if r = 3 then [.ALIE_min, .ALIE_max, .ALIE_avg]
  else if r = 4 then [.LEA_min, .LEA_max, .LEA_avg]
  else if r = 5 then [.LEAE_min, .LEAE_max]
  else []

/-- All fields the surface-analysis pass can ever write. -/
def espFieldsAll : List DField :=
  [.volume, .surface_area, .ESP_min, .ESP_max, .MPI,
   .ALIE_min, .ALIE_max, .ALIE_avg, .LEA_min, .LEA_max, .LEA_avg,
   .LEAE_min, .LEAE_max]

/-- All fields the fuzzy pass can ever write. -/
def fuzzyFieldsAll : List DField :=
  [.electron_density, .Laplacian_electron_density, .kinetic_energy_density]

/-- A line containing any of the four atom-section anchors. -/
def atomAnchorAny (l : List Char) : Bool :=
  containsL anchorCitation l || containsL anchorNote l ||
    containsL anchorStage2 l || containsL anchorPopulation l

/- ===================== Generic lemmas ===================== -/

theorem bind_ok {α β : Type} {x : Except Err α} {f : α → Except Err β} {b : β}
    (h : x >>= f = Except.ok b) : ∃ a, x = Except.ok a ∧ f a = Except.ok b := by
  cases x with
  | error e => exact Except.noConfusion h
  | ok a => exact ⟨a, rfl, h⟩

theorem map_ok {α β : Type} {g : α → β} {x : Except Err α} {b : β}
    (h : Except.map g x = Except.ok b) : ∃ a, x = Except.ok a ∧ g a = b := by
  cases x with
  | error e => exact Except.noConfusion h
  | ok a => exact ⟨a, rfl, Except.ok.inj h⟩

theorem seq_ok {α β : Type} {x : Except Err α} {k : α → Except Err β} {a : α}
    (hx : x = Except.ok a) : x >>= k = k a := by
  subst hx; rfl

theorem seq_err {α β : Type} {x : Except Err α} {k : α → Except Err β} {e : Err}
    (hx : x = Except.error e) : x >>= k = Except.error e := by
  subst hx; rfl

theorem containsL_spec {pat s : List Char} : containsL pat s = true ↔ pat <:+: s := by
  induction s with
  | nil =>
    simp only [containsL]
    rw [List.isEmpty_iff]
    constructor
    · rintro rfl; exact List.infix_rfl
    · intro h
      exact List.eq_nil_of_length_eq_zero (Nat.le_zero.mp h.length_le)
  | cons c rest ih =>
    simp only [containsL, Bool.or_eq_true, List.isPrefixOf_iff_prefix, ih,
      List.infix_cons_iff]

theorem containsL_mono {pat p s : List Char} (hp : p <:+: s)
    (h : containsL pat p = true) : containsL pat s = true :=
  containsL_spec.mpr ((containsL_spec.mp h).trans hp)

theorem containsL_trans {a l b : List Char} (h1 : containsL a l = true)
    (h2 : containsL b a = true) : containsL b l = true :=
  containsL_mono (containsL_spec.mp h1) h2

theorem splitGo_ne_nil (c0 : Char) (cs : List Char) :
    ∀ fuel s, splitGo c0 cs fuel s ≠ [] := by
  intro fuel
  induction fuel with
  | zero => intro s; simp [splitGo]
  | succ n ih =>
    intro s
    cases s with
    | nil => simp [splitGo]
    | cons c rest =>
      by_cases hp : (c0 :: cs).isPrefixOf (c :: rest) = true
      · simp [splitGo, hp]
      · simp only [splitGo, hp, if_false]
        cases hsp : splitGo c0 cs n rest <;> simp

theorem splitGo_shape (c0 : Char) (cs : List Char) :
    ∀ fuel s, ∃ h t, splitGo c0 cs fuel s = h :: t ∧ h <+: s ∧ ∀ p ∈ t, p <:+: s := by
  intro fuel
  induction fuel with
  | zero =>
    intro s
    exact ⟨s, [], rfl, List.prefix_rfl, by simp⟩
  | succ n ih =>
    intro s
    cases s with
    | nil => exact ⟨[], [], rfl, List.nil_prefix, by simp⟩
    | cons c rest =>
      by_cases hp : (c0 :: cs).isPrefixOf (c :: rest) = true
      · refine ⟨[], splitGo c0 cs n (rest.drop cs.length), by simp [splitGo, hp],
          List.nil_prefix, ?_⟩
        intro p hps
        obtain ⟨h, t, heq, hpre, htail⟩ := ih (rest.drop cs.length)
        have hdp : rest.drop cs.length <:+: c :: rest :=
          ((List.drop_suffix cs.length rest).trans (List.suffix_cons c rest)).isInfix
        rw [heq] at hps
        rcases List.mem_cons.mp hps with rfl | hmem
        · exact hpre.isInfix.trans hdp
        · exact (htail p hmem).trans hdp
      · obtain ⟨h, t, heq, hpre, htail⟩ := ih rest
        refine ⟨c :: h, t, ?_, ?_, ?_⟩
        · simp [splitGo, hp, heq]
        · obtain ⟨u, hu⟩ := hpre
          exact ⟨u, by simp [← hu]⟩
        · intro p hmem
          exact (htail p hmem).trans (List.infix_cons List.infix_rfl)

theorem splitGo_mem_sub {c0 : Char} {cs : List Char} {fuel : Nat} {s p : List Char}
    (hp : p ∈ splitGo c0 cs fuel s) : p <:+: s := by
  obtain ⟨h, t, heq, hpre, htail⟩ := splitGo_shape c0 cs fuel s
  rw [heq] at hp
  rcases List.mem_cons.mp hp with rfl | hmem
  · exact hpre.isInfix
  · exact htail p hmem

theorem splitGo_len2 (c0 : Char) (cs : List Char) :
    ∀ fuel s, s.length ≤ fuel → containsL (c0 :: cs) s = true →
      2 ≤ (splitGo c0 cs fuel s).length := by
  intro fuel
  induction fuel with
  | zero =>
    intro s hlen hc
    have hs : s = [] := List.eq_nil_of_length_eq_zero (Nat.le_zero.mp hlen)
    subst hs
    simp [containsL] at hc
  | succ n ih =>
    intro s hlen hc
    cases s with
    | nil => simp [containsL] at hc
    | cons c rest =>
      by_cases hp : (c0 :: cs).isPrefixOf (c :: rest) = true
      · simp only [splitGo, hp, if_true]
        cases hsp : splitGo c0 cs n (rest.drop cs.length) with
        | nil => exact absurd hsp (splitGo_ne_nil c0 cs n (rest.drop cs.length))
        | cons h t => simp
      · simp only [containsL, Bool.or_eq_true] at hc
        rcases hc with hc | hc
        · exact absurd hc hp
        · have hlen' : rest.length ≤ n := by simpa using hlen
          have h2 := ih rest hlen' hc
          simp only [splitGo, hp, if_false]
          cases hsp : splitGo c0 cs n rest with
          | nil => exact absurd hsp (splitGo_ne_nil c0 cs n rest)
          | cons h t => rw [hsp] at h2; simpa using h2

theorem splitGo_single (c0 : Char) (cs : List Char) :
    ∀ fuel s, containsL (c0 :: cs) s = false → splitGo c0 cs fuel s = [s] := by
  intro fuel
  induction fuel with
  | zero => intro s _; rfl
  | succ n ih =>
    intro s hc
    cases s with
    | nil => rfl
    | cons c rest =>
      simp only [containsL, Bool.or_eq_false_iff] at hc
      obtain ⟨hp, hrest⟩ := hc
      simp [splitGo, hp, ih rest hrest]

theorem dSet_same (d : Descr) (f : DField) (v : DVal) : dSet d f v f = v := by
  unfold dSet
  exact Function.update_same f v d

theorem dSet_ne (d : Descr) {f g : DField} (v : DVal) (h : f ≠ g) : dSet d g v f = d f := by
  unfold dSet
  exact Function.update_noteq h v d

theorem pyEnumFrom_mem {α : Type} : ∀ (n : Nat) (l : List α) (p : Nat × α),
    p ∈ pyEnumFrom n l → p.2 ∈ l := by
  intro n l
  induction l generalizing n with
  | nil => intro p h; simp [pyEnumFrom] at h
  | cons a as ih =>
    intro p h
    simp only [pyEnumFrom, List.mem_cons] at h
    rcases h with rfl | h
    · simp
    · exact List.mem_cons_of_mem _ (ih (n + 1) p h)

theorem mapME_ok_length {α β : Type} {f : α → Except Err β} :
    ∀ {l : List α} {ys : List β}, mapME f l = Except.ok ys → ys.length = l.length := by
  intro l
  induction l with
  | nil =>
    intro ys h
    cases h
    rfl
  | cons a as ih =>
    intro ys h
    simp only [mapME] at h
    obtain ⟨b, hb, h⟩ := bind_ok h
    obtain ⟨bs, hbs, h⟩ := bind_ok h
    cases h
    simp [ih hbs]

theorem mapME_congr {α β : Type} {f g : α → Except Err β} :
    ∀ (l : List α), (∀ a ∈ l, f a = g a) → mapME f l = mapME g l := by
  intro l
  induction l with
  | nil => intro _; rfl
  | cons a as ih =>
    intro h
    simp only [mapME]
    rw [h a (by simp), ih (fun x hx => h x (by simp [hx]))]

/- ===================== Frame lemmas for the four passes ===================== -/

theorem scalarStep_frame {d d' : Descr} {line : List Char} {f : DField}
    (h : scalarStep d line = Except.ok d') (hf : trigger f line = false) :
    d' f = d f := by
  unfold scalarStep at h
  by_cases h1 : containsL anchorAtoms line = true
  · rw [if_pos h1] at h
    obtain ⟨v, _, rfl⟩ := map_ok h
    rcases eq_or_ne f DField.atom_num with rfl | hfg
    · simp [trigger, h1] at hf
    · exact dSet_ne d _ hfg
  · rw [if_neg h1] at h
    by_cases h2 : containsL anchorWeight line = true
    · rw [if_pos h2] at h
      obtain ⟨v, _, rfl⟩ := map_ok h
      rcases eq_or_ne f DField.mass with rfl | hfg
      · simp [trigger, h2] at hf
      · exact dSet_ne d _ hfg
    · rw [if_neg h2] at h
      by_cases h3 : containsL anchorTotalEnergy line = true
      · rw [if_pos h3] at h
        obtain ⟨v, _, rfl⟩ := map_ok h
        rcases eq_or_ne f DField.total_energy with rfl | hfg
        · simp [trigger, h3] at hf
        · exact dSet_ne d _ hfg
      · rw [if_neg h3] at h
        by_cases h4 : (containsL (L "Orbital") line && containsL (L "HOMO") line) = true
        · rw [if_pos h4] at h
          obtain ⟨v, _, rfl⟩ := map_ok h
          rcases eq_or_ne f DField.HOMO with rfl | hfg
          · simp [trigger, h4] at hf
          · exact dSet_ne d _ hfg
        · rw [if_neg h4] at h
          by_cases h5 : (containsL (L "Orbital") line && containsL (L "LUMO") line) = true
          · rw [if_pos h5] at h
            obtain ⟨v, _, rfl⟩ := map_ok h
            rcases eq_or_ne f DField.LUMO with rfl | hfg
            · simp [trigger, h5] at hf
            · exact dSet_ne d _ hfg
          · rw [if_neg h5] at h
            by_cases h6 : containsL anchorGap line = true
            · rw [if_pos h6] at h
              obtain ⟨v, _, rfl⟩ := map_ok h
              rcases eq_or_ne f DField.HOMO_LUMO_gap with rfl | hfg
              · simp [trigger, h6] at hf
              · exact dSet_ne d _ hfg
            · rw [if_neg h6] at h
              by_cases h7 : containsL anchorRadius line = true
              · rw [if_pos h7] at h
                obtain ⟨v, _, rfl⟩ := map_ok h
                rcases eq_or_ne f DField.radius_gyration with rfl | hfg
                · simp [trigger, h7] at hf
                · exact dSet_ne d _ hfg
              · rw [if_neg h7] at h
                by_cases h8 : containsL anchorMPP line = true
                · rw [if_pos h8] at h
                  obtain ⟨v, _, rfl⟩ := map_ok h
                  rcases eq_or_ne f DField.MPP with rfl | hfg
                  · simp [trigger, h8] at hf
                  · exact dSet_ne d _ hfg
                · rw [if_neg h8] at h
                  by_cases h9 : containsL anchorSDP line = true
                  · rw [if_pos h9] at h
                    obtain ⟨v, _, rfl⟩ := map_ok h
                    rcases eq_or_ne f DField.SDP with rfl | hfg
                    · simp [trigger, h9] at hf
                    · exact dSet_ne d _ hfg
                  · rw [if_neg h9] at h
                    by_cases h10 : containsL anchorDiameter line = true
                    · rw [if_pos h10] at h
                      obtain ⟨v, _, rfl⟩ := map_ok h
                      rcases eq_or_ne f DField.diameter with rfl | hfg
                      · simp [trigger, h10] at hf
                      · exact dSet_ne d _ hfg
                    · rw [if_neg h10] at h
                      by_cases h11 : containsL anchorSphericity line = true
                      · rw [if_pos h11] at h
                        obtain ⟨v, _, rfl⟩ := map_ok h
                        rcases eq_or_ne f DField.sphericity with rfl | hfg
                        · simp [trigger, h11] at hf
                        · exact dSet_ne d _ hfg
                      · rw [if_neg h11] at h
                        by_cases h12 : containsL anchorDipole line = true
                        · rw [if_pos h12] at h
                          obtain ⟨v, _, rfl⟩ := map_ok h
                          rcases eq_or_ne f DField.dipole_moment with rfl | hfg
                          · simp [trigger, h12] at hf
                          · exact dSet_ne d _ hfg
                        · rw [if_neg h12] at h
                          cases h
                          rfl

theorem atomStep_frame {lines : List (List Char)} {d d' : Descr} {line : List Char}
    {f : DField}
    (h : atomStep lines d line = Except.ok d') (hf : trigger f line = false) :
    d' f = d f := by
  unfold atomStep at h
  split_ifs at h with h1 h2 h3 h4
  · obtain ⟨i, _, h⟩ := bind_ok h
    obtain ⟨n, _, h⟩ := bind_ok h
    obtain ⟨m, _, h⟩ := bind_ok h
    cases h
    rcases eq_or_ne f DField.Hirshfeld_charge with rfl | hfg
    · simp [trigger, h1] at hf
    · exact dSet_ne d _ hfg
  · obtain ⟨i, _, h⟩ := bind_ok h
    obtain ⟨n, _, h⟩ := bind_ok h
    obtain ⟨m, _, h⟩ := bind_ok h
    cases h
    rcases eq_or_ne f DField.ADCH_charge with rfl | hfg
    · simp [trigger, h2] at hf
    · exact dSet_ne d _ hfg
  · obtain ⟨i, _, h⟩ := bind_ok h
    obtain ⟨n, _, h⟩ := bind_ok h
    obtain ⟨m, _, h⟩ := bind_ok h
    cases h
    rcases eq_or_ne f DField.RESP_charge with rfl | hfg
    · simp [trigger, h3] at hf
    · exact dSet_ne d _ hfg
  · obtain ⟨i, _, h⟩ := bind_ok h
    obtain ⟨n, _, h⟩ := bind_ok h
    obtain ⟨m, _, h⟩ := bind_ok h
    cases h
    rcases eq_or_ne f DField.spin_population with rfl | hfg
    · simp [trigger, h4] at hf
    · exact dSet_ne d _ hfg
  · cases h; rfl

theorem atomStep_skip {lines : List (List Char)} {d : Descr} {line : List Char}
    (h : atomAnchorAny line = false) : atomStep lines d line = Except.ok d := by
  unfold atomStep
  simp only [atomAnchorAny, Bool.or_eq_false_iff] at h
  obtain ⟨⟨⟨hc, hn⟩, hs⟩, hp⟩ := h
  simp [hc, hn, hs, hp]

theorem atomStep_fatal {lines : List (List Char)} {d : Descr} {line : List Char}
    (ha : atomAnchorAny line = true) (hn : d DField.atom_num = DVal.none) :
    ∃ e, atomStep lines d line = Except.error e := by
  have hga : getAtomNum d = Except.error Err.typeError := by
    unfold getAtomNum
    rw [hn]
  unfold atomStep
  by_cases h1 : containsL anchorCitation line = true
  · rw [if_pos h1]
    cases hI : pyListIndex lines line with
    | error e => exact ⟨e, rfl⟩
    | ok i =>
        exact ⟨Err.typeError,
          show (getAtomNum d >>= _) = Except.error Err.typeError from seq_err hga⟩
  · rw [if_neg h1]
    by_cases h2 : containsL anchorNote line = true
    · rw [if_pos h2]
      cases hI : pyListIndex lines line with
      | error e => exact ⟨e, rfl⟩
      | ok i =>
        exact ⟨Err.typeError,
          show (getAtomNum d >>= _) = Except.error Err.typeError from seq_err hga⟩
    · rw [if_neg h2]
      by_cases h3 : containsL anchorStage2 line = true
      · rw [if_pos h3]
        cases hI : pyListIndex lines line with
        | error e => exact ⟨e, rfl⟩
        | ok i =>
        exact ⟨Err.typeError,
          show (getAtomNum d >>= _) = Except.error Err.typeError from seq_err hga⟩
      · rw [if_neg h3]
        have h4 : containsL anchorPopulation line = true := by
          simp only [atomAnchorAny, Bool.or_eq_true] at ha
          rcases ha with ((hc | hnn) | hs) | hp
          · exact absurd hc h1
          · exact absurd hnn h2
          · exact absurd hs h3
          · exact hp
        rw [if_pos h4]
        cases hI : pyListIndex lines line with
        | error e => exact ⟨e, rfl⟩
        | ok i =>
        exact ⟨Err.typeError,
          show (getAtomNum d >>= _) = Except.error Err.typeError from seq_err hga⟩

theorem espBranch1_shape {lines : List (List Char)} {i : Nat} {d d' : Descr}
    (h : espBranch lines i 1 d = Except.ok d') :
    ∃ v w, d' = dSet (dSet d .volume (DVal.q v)) .surface_area (DVal.q w) := by
  unfold espBranch at h
  rw [if_pos rfl] at h
  obtain ⟨line, _, h⟩ := bind_ok h
  obtain ⟨s1, _, h⟩ := bind_ok h
  obtain ⟨s2, _, h⟩ := bind_ok h
  obtain ⟨v, _, h⟩ := bind_ok h
  obtain ⟨line2, _, h⟩ := bind_ok h
  obtain ⟨t1, _, h⟩ := bind_ok h
  obtain ⟨t2, _, h⟩ := bind_ok h
  obtain ⟨w, _, h⟩ := bind_ok h
  cases h
  exact ⟨_, _, rfl⟩

theorem espBranch2_shape {lines : List (List Char)} {i : Nat} {d d' : Descr}
    (h : espBranch lines i 2 d = Except.ok d') :
    ∃ a b c, d' = dSet (dSet (dSet d .ESP_min (DVal.q a)) .ESP_max (DVal.q b))
      .MPI (DVal.q c) := by
  unfold espBranch at h
  rw [if_neg (by decide), if_pos rfl] at h
  obtain ⟨line, _, h⟩ := bind_ok h
  obtain ⟨s1, _, h⟩ := bind_ok h
  obtain ⟨s2, _, h⟩ := bind_ok h
  obtain ⟨v1, _, h⟩ := bind_ok h
  obtain ⟨t1, _, h⟩ := bind_ok h
  obtain ⟨t2, _, h⟩ := bind_ok h
  obtain ⟨v2, _, h⟩ := bind_ok h
  obtain ⟨line2, _, h⟩ := bind_ok h
  obtain ⟨u1, _, h⟩ := bind_ok h
  obtain ⟨u2, _, h⟩ := bind_ok h
  obtain ⟨v3, _, h⟩ := bind_ok h
  cases h
  exact ⟨_, _, _, rfl⟩

theorem espBranch3_shape {lines : List (List Char)} {i : Nat} {d d' : Descr}
    (h : espBranch lines i 3 d = Except.ok d') :
    ∃ a b c, d' = dSet (dSet (dSet d .ALIE_min (DVal.q a)) .ALIE_max (DVal.q b))
      .ALIE_avg (DVal.q c) := by
  unfold espBranch at h
  rw [if_neg (by decide), if_neg (by decide), if_pos rfl] at h
  obtain ⟨line, _, h⟩ := bind_ok h
  obtain ⟨s1, _, h⟩ := bind_ok h
  obtain ⟨s2, _, h⟩ := bind_ok h
  obtain ⟨v1, _, h⟩ := bind_ok h
  obtain ⟨t1, _, h⟩ := bind_ok h
  obtain ⟨t2, _, h⟩ := bind_ok h
  obtain ⟨v2, _, h⟩ := bind_ok h
  obtain ⟨line2, _, h⟩ := bind_ok h
  obtain ⟨u1, _, h⟩ := bind_ok h
  obtain ⟨u2, _, h⟩ := bind_ok h
  obtain ⟨v3, _, h⟩ := bind_ok h
  cases h
  exact ⟨_, _, _, rfl⟩

theorem espBranch4_shape {lines : List (List Char)} {i : Nat} {d d' : Descr}
    (h : espBranch lines i 4 d = Except.ok d') :
    ∃ a b c, d' = dSet (dSet (dSet d .LEA_min (DVal.q a)) .LEA_max (DVal.q b))
      .LEA_avg (DVal.q c) := by
  unfold espBranch at h
  rw [if_neg (by decide), if_neg (by decide), if_neg (by decide), if_pos rfl] at h
  obtain ⟨line, _, h⟩ := bind_ok h
  obtain ⟨s1, _, h⟩ := bind_ok h
  obtain ⟨s2, _, h⟩ := bind_ok h
  obtain ⟨v1, _, h⟩ := bind_ok h
  obtain ⟨t1, _, h⟩ := bind_ok h
  obtain ⟨t2, _, h⟩ := bind_ok h
  obtain ⟨v2, _, h⟩ := bind_ok h
  obtain ⟨line2, _, h⟩ := bind_ok h
  obtain ⟨u1, _, h⟩ := bind_ok h
  obtain ⟨u2, _, h⟩ := bind_ok h
  obtain ⟨v3, _, h⟩ := bind_ok h
  cases h
  exact ⟨_, _, _, rfl⟩

theorem espBranch5_shape {lines : List (List Char)} {i : Nat} {d d' : Descr}
    (h : espBranch lines i 5 d = Except.ok d') :
    ∃ a b, d' = dSet (dSet d .LEAE_min (DVal.q a)) .LEAE_max (DVal.q b) := by
  unfold espBranch at h
  rw [if_neg (by decide), if_neg (by decide), if_neg (by decide), if_neg (by decide),
    if_pos rfl] at h
  obtain ⟨line, _, h⟩ := bind_ok h
  obtain ⟨s1, _, h⟩ := bind_ok h
  obtain ⟨s2, _, h⟩ := bind_ok h
  obtain ⟨v1, _, h⟩ := bind_ok h
  obtain ⟨t1, _, h⟩ := bind_ok h
  obtain ⟨t2, _, h⟩ := bind_ok h
  obtain ⟨v2, _, h⟩ := bind_ok h
  cases h
  exact ⟨_, _, rfl⟩

theorem espBranch_other {lines : List (List Char)} {i r : Nat} {d : Descr}
    (h1 : r ≠ 1) (h2 : r ≠ 2) (h3 : r ≠ 3) (h4 : r ≠ 4) (h5 : r ≠ 5) :
    espBranch lines i r d = Except.ok d := by
  unfold espBranch
  rw [if_neg h1, if_neg h2, if_neg h3, if_neg h4, if_neg h5]

theorem espBranch_frame {lines : List (List Char)} {i r : Nat} {d d' : Descr}
    (h : espBranch lines i r d = Except.ok d') :
    ∀ f, f ∉ touches r → d' f = d f := by
  intro f hf
  by_cases hr1 : r = 1
  · subst hr1
    obtain ⟨v, w, rfl⟩ := espBranch1_shape h
    simp [touches] at hf
    rw [dSet_ne _ _ hf.2, dSet_ne _ _ hf.1]
  by_cases hr2 : r = 2
  · subst hr2
    obtain ⟨a, b, c, rfl⟩ := espBranch2_shape h
    simp [touches] at hf
    rw [dSet_ne _ _ hf.2.2, dSet_ne _ _ hf.2.1, dSet_ne _ _ hf.1]
  by_cases hr3 : r = 3
  · subst hr3
    obtain ⟨a, b, c, rfl⟩ := espBranch3_shape h
    simp [touches] at hf
    rw [dSet_ne _ _ hf.2.2, dSet_ne _ _ hf.2.1, dSet_ne _ _ hf.1]
  by_cases hr4 : r = 4
  · subst hr4
    obtain ⟨a, b, c, rfl⟩ := espBranch4_shape h
    simp [touches] at hf
    rw [dSet_ne _ _ hf.2.2, dSet_ne _ _ hf.2.1, dSet_ne _ _ hf.1]
  by_cases hr5 : r = 5
  · subst hr5
    obtain ⟨a, b, rfl⟩ := espBranch5_shape h
    simp [touches] at hf
    rw [dSet_ne _ _ hf.2, dSet_ne _ _ hf.1]
  rw [espBranch_other hr1 hr2 hr3 hr4 hr5] at h
  cases h
  rfl

theorem espBranch_sets {lines : List (List Char)} {i r : Nat} {d d' : Descr}
    (h : espBranch lines i r d = Except.ok d') :
    ∀ f ∈ touches r, d' f ≠ DVal.none := by
  intro f hf
  by_cases hr1 : r = 1
  · subst hr1
    obtain ⟨v, w, rfl⟩ := espBranch1_shape h
    simp [touches] at hf
    rcases hf with rfl | rfl
    · rw [dSet_ne _ _ (by decide), dSet_same]; exact fun hc => DVal.noConfusion hc
    · rw [dSet_same]; exact fun hc => DVal.noConfusion hc
  by_cases hr2 : r = 2
  · subst hr2
    obtain ⟨a, b, c, rfl⟩ := espBranch2_shape h
    simp [touches] at hf
    rcases hf with rfl | rfl | rfl
    · rw [dSet_ne _ _ (by decide), dSet_ne _ _ (by decide), dSet_same]
      exact fun hc => DVal.noConfusion hc
    · rw [dSet_ne _ _ (by decide), dSet_same]; exact fun hc => DVal.noConfusion hc
    · rw [dSet_same]; exact fun hc => DVal.noConfusion hc
  by_cases hr3 : r = 3
  · subst hr3
    obtain ⟨a, b, c, rfl⟩ := espBranch3_shape h
    simp [touches] at hf
    rcases hf with rfl | rfl | rfl
    · rw [dSet_ne _ _ (by decide), dSet_ne _ _ (by decide), dSet_same]
      exact fun hc => DVal.noConfusion hc
    · rw [dSet_ne _ _ (by decide), dSet_same]; exact fun hc => DVal.noConfusion hc
    · rw [dSet_same]; exact fun hc => DVal.noConfusion hc
  by_cases hr4 : r = 4
  · subst hr4
    obtain ⟨a, b, c, rfl⟩ := espBranch4_shape h
    simp [touches] at hf
    rcases hf with rfl | rfl | rfl
    · rw [dSet_ne _ _ (by decide), dSet_ne _ _ (by decide), dSet_same]
      exact fun hc => DVal.noConfusion hc
    · rw [dSet_ne _ _ (by decide), dSet_same]; exact fun hc => DVal.noConfusion hc
    · rw [dSet_same]; exact fun hc => DVal.noConfusion hc
  by_cases hr5 : r = 5
  · subst hr5
    obtain ⟨a, b, rfl⟩ := espBranch5_shape h
    simp [touches] at hf
    rcases hf with rfl | rfl
    · rw [dSet_ne _ _ (by decide), dSet_same]; exact fun hc => DVal.noConfusion hc
    · rw [dSet_same]; exact fun hc => DVal.noConfusion hc
  simp [touches, hr1, hr2, hr3, hr4, hr5] at hf

theorem fuzzyBranch1_shape {lines : List (List Char)} {i : Nat} {d d' : Descr}
    (h : fuzzyBranch lines i 1 d = Except.ok d') :
    ∃ m, d' = dSet d .electron_density (DVal.mol m) := by
  unfold fuzzyBranch at h
  rw [if_pos rfl] at h
  obtain ⟨n, _, h⟩ := bind_ok h
  obtain ⟨m, _, h⟩ := bind_ok h
  cases h
  exact ⟨_, rfl⟩

theorem fuzzyBranch2_shape {lines : List (List Char)} {i : Nat} {d d' : Descr}
    (h : fuzzyBranch lines i 2 d = Except.ok d') :
    ∃ m, d' = dSet d .Laplacian_electron_density (DVal.mol m) := by
  unfold fuzzyBranch at h
  rw [if_neg (by decide), if_pos rfl] at h
  obtain ⟨n, _, h⟩ := bind_ok h
  obtain ⟨m, _, h⟩ := bind_ok h
  cases h
  exact ⟨_, rfl⟩

theorem fuzzyBranch3_shape {lines : List (List Char)} {i : Nat} {d d' : Descr}
    (h : fuzzyBranch lines i 3 d = Except.ok d') :
    ∃ m, d' = dSet d .kinetic_energy_density (DVal.mol m) := by
  unfold fuzzyBranch at h
  rw [if_neg (by decide), if_neg (by decide), if_pos rfl] at h
  obtain ⟨n, _, h⟩ := bind_ok h
  obtain ⟨m, _, h⟩ := bind_ok h
  cases h
  exact ⟨_, rfl⟩

theorem fuzzyBranch_other {lines : List (List Char)} {i r : Nat} {d : Descr}
    (h1 : r ≠ 1) (h2 : r ≠ 2) (h3 : r ≠ 3) :
    fuzzyBranch lines i r d = Except.ok d := by
  unfold fuzzyBranch
  rw [if_neg h1, if_neg h2, if_neg h3]

theorem fuzzyBranch_frame {lines : List (List Char)} {i r : Nat} {d d' : Descr}
    (h : fuzzyBranch lines i r d = Except.ok d') :
    ∀ f, f ∉ fuzzyFieldsAll → d' f = d f := by
  intro f hf
  simp [fuzzyFieldsAll] at hf
  by_cases hr1 : r = 1
  · subst hr1
    obtain ⟨m, rfl⟩ := fuzzyBranch1_shape h
    rw [dSet_ne _ _ hf.1]
  by_cases hr2 : r = 2
  · subst hr2
    obtain ⟨m, rfl⟩ := fuzzyBranch2_shape h
    rw [dSet_ne _ _ hf.2.1]
  by_cases hr3 : r = 3
  · subst hr3
    obtain ⟨m, rfl⟩ := fuzzyBranch3_shape h
    rw [dSet_ne _ _ hf.2.2]
  rw [fuzzyBranch_other hr1 hr2 hr3] at h
  cases h
  rfl

theorem touches_subset : ∀ r f, f ∈ touches r → f ∈ espFieldsAll := by
  intro r f hf
  unfold touches at hf
  split_ifs at hf
  · fin_cases hf <;> decide
  · fin_cases hf <;> decide
  · fin_cases hf <;> decide
  · fin_cases hf <;> decide
  · fin_cases hf <;> decide
  · simp at hf

theorem countLoop_pres {branch : Nat → Nat → Descr → Except Err Descr} {anc : List Char}
    {f : DField}
    (hbr : ∀ i r d d', branch i r d = Except.ok d' → d' f = d f) :
    ∀ ps c d d', countLoop branch anc ps c d = Except.ok d' → d' f = d f := by
  intro ps
  induction ps with
  | nil => intro c d d' h; cases h; rfl
  | cons p rest ih =>
    intro c d d' h
    simp only [countLoop] at h
    by_cases hc : containsL anc p.2 = true
    · rw [if_pos hc] at h
      obtain ⟨dm, hbd, h⟩ := bind_ok h
      exact (ih _ _ _ h).trans (hbr _ _ _ _ hbd)
    · rw [if_neg hc] at h
      exact ih _ _ _ h

theorem countLoop_skip {branch : Nat → Nat → Descr → Except Err Descr} {anc : List Char} :
    ∀ ps c d, (∀ p ∈ ps, containsL anc p.2 = false) →
      countLoop branch anc ps c d = Except.ok d := by
  intro ps
  induction ps with
  | nil => intro c d _; rfl
  | cons p rest ih =>
    intro c d hall
    have hp := hall p (by simp)
    simp only [countLoop]
    rw [if_neg (by simp [hp])]
    exact ih c d (fun q hq => hall q (List.mem_cons_of_mem _ hq))

theorem countLoop_eq_rankFold {branch : Nat → Nat → Descr → Except Err Descr}
    {anc : List Char} :
    ∀ ps c d, countLoop branch anc ps c d = rankFold branch (occsOf anc ps) c d := by
  intro ps
  induction ps with
  | nil => intro c d; rfl
  | cons p rest ih =>
    intro c d
    by_cases hc : containsL anc p.2 = true
    · simp only [countLoop, occsOf, List.filterMap_cons, hc, if_pos, rankFold]
      cases hb : branch p.1 (c + 1) d with
      | error e => rfl
      | ok dm => exact ih (c + 1) dm
    · simp only [countLoop, occsOf, List.filterMap_cons, hc, if_neg, if_false]
      exact ih c d

theorem foldE_pres {step : Descr → List Char → Except Err Descr} {P : List Char → Prop}
    {f : DField}
    (hstep : ∀ d d' l, P l → step d l = Except.ok d' → d' f = d f) :
    ∀ ls d d', (∀ l ∈ ls, P l) → foldE step d ls = Except.ok d' → d' f = d f := by
  intro ls
  induction ls with
  | nil => intro d d' _ h; cases h; rfl
  | cons l rest ih =>
    intro d d' hall h
    simp only [foldE] at h
    obtain ⟨dm, hdm, h⟩ := bind_ok h
    exact (ih dm d' (fun x hx => hall x (List.mem_cons_of_mem _ hx)) h).trans
      (hstep d dm l (hall l (by simp)) hdm)

theorem trigger_esp {f : DField} (hf : f ∈ espFieldsAll) (l : List Char) :
    trigger f l = containsL anchorSurf l := by
  fin_cases hf <;> rfl

theorem trigger_fuzzy {f : DField} (hf : f ∈ fuzzyFieldsAll) (l : List Char) :
    trigger f l = containsL anchorFuzzy l := by
  fin_cases hf <;> rfl

/- ===================== Decomposition of the main parse ===================== -/

theorem getOther_err1 {lines : List (List Char)} {e : Err}
    (hS : foldE scalarStep descr0 lines = Except.error e) :
    getOtherDescriptorsL lines = Except.error e := by
  unfold getOtherDescriptorsL
  rw [hS]
  rfl

theorem getOther_err2 {lines : List (List Char)} {d1 : Descr} {e : Err}
    (hS : foldE scalarStep descr0 lines = Except.ok d1)
    (hE : espLoop lines (pyEnumFrom 0 lines) 0 d1 = Except.error e) :
    getOtherDescriptorsL lines = Except.error e := by
  unfold getOtherDescriptorsL
  rw [hS]
  show (espLoop lines (pyEnumFrom 0 lines) 0 d1 >>= _) = _
  rw [hE]
  rfl

theorem getOther_err3 {lines : List (List Char)} {d1 d2 : Descr} {e : Err}
    (hS : foldE scalarStep descr0 lines = Except.ok d1)
    (hE : espLoop lines (pyEnumFrom 0 lines) 0 d1 = Except.ok d2)
    (hA : foldE (atomStep lines) d2 lines = Except.error e) :
    getOtherDescriptorsL lines = Except.error e := by
  unfold getOtherDescriptorsL
  rw [hS]
  show (espLoop lines (pyEnumFrom 0 lines) 0 d1 >>= _) = _
  rw [hE]
  show (foldE (atomStep lines) d2 lines >>= _) = _
  rw [hA]
  rfl

theorem atomFold_fatal (lines : List (List Char)) :
    ∀ (ls : List (List Char)) (d : Descr), d DField.atom_num = DVal.none →
      (∃ l ∈ ls, atomAnchorAny l = true) →
      ∃ e, foldE (atomStep lines) d ls = Except.error e := by
  intro ls
  induction ls with
  | nil =>
    intro d _ h
    simp at h
  | cons l rest ih =>
    intro d hn hex
    by_cases ha : atomAnchorAny l = true
    · obtain ⟨e, he⟩ := atomStep_fatal ha hn
      refine ⟨e, ?_⟩
      simp only [foldE]
      rw [seq_err he]
    · have hstep : atomStep lines d l = Except.ok d := atomStep_skip (Bool.eq_false_iff.mpr ha)
      have hex' : ∃ x ∈ rest, atomAnchorAny x = true := by
        obtain ⟨x, hx, hxa⟩ := hex
        rcases List.mem_cons.mp hx with rfl | hx'
        · exact absurd hxa ha
        · exact ⟨x, hx', hxa⟩
      obtain ⟨e, he⟩ := ih d hn hex'
      refine ⟨e, ?_⟩
      simp only [foldE]
      rw [seq_ok hstep]
      exact he

/- ===================== Claim theorems ===================== -/

/-- C9: round-trip of the `Molecule` serialization: for every `Molecule` `m`,
`Molecule.from_dict (Molecule.to_dict m)` has the same name, atoms and charges
as `m`. -/
theorem C9_molecule_round_trip (m : Molecule) :
    (Molecule.from_dict (Molecule.to_dict m)).name = m.name ∧
    (Molecule.from_dict (Molecule.to_dict m)).atoms = m.atoms ∧
    (Molecule.from_dict (Molecule.to_dict m)).charges = m.charges :=
  ⟨rfl, rfl, rfl⟩

/-- C10: `_read_charge` called with a `charge_type` outside
`{RESP, Hirshfeld, ADCH, spin}` silently returns an empty `Molecule`
(name `None`, no atoms, no charges) without raising, for any input lines. -/
theorem C10_unknown_charge_type (chargeLines : List (List Char)) (t : List Char)
    (h1 : t ≠ L "RESP") (h2 : t ≠ L "Hirshfeld") (h3 : t ≠ L "ADCH")
    (h4 : t ≠ L "spin") :
    readCharge chargeLines t = Except.ok ⟨Option.none, [], []⟩ := by
  unfold readCharge
  rw [if_neg h1, if_neg h2, if_neg h3, if_neg h4]

/-- C10 witness: a concrete unknown charge type on a concrete row. -/
theorem C10_witness :
    readCharge [L " 1 C 1 x 0.5"] (L "Mulliken") = Except.ok ⟨Option.none, [], []⟩ :=
  C10_unknown_charge_type _ _ (by decide) (by decide) (by decide) (by decide)

/-- C4: each per-atom extractor follows exactly the declared whitespace-token
layout: every row function of `_read_charge` / `_read_fuzzy` coincides with the
generic layout engine applied to the spec's enumerated table entry, and the
window-level readers are the corresponding row maps. -/
theorem C4_token_layouts (line : List Char) (rows : List (List Char)) :
    respRow line = applyLayout respLayout line ∧
    hirshRow line = applyLayout hirshLayout line ∧
    adchRow line = applyLayout adchLayout line ∧
    spinRow line = applyLayout spinLayout line ∧
    fuzzyRow line = applyLayout fuzzyLayout line ∧
    readCharge rows (L "RESP") = Except.map molOf (mapME (applyLayout respLayout) rows) ∧
    readCharge rows (L "Hirshfeld") =
      Except.map molOf (mapME (applyLayout hirshLayout) rows) ∧
    readCharge rows (L "ADCH") = Except.map molOf (mapME (applyLayout adchLayout) rows) ∧
    readCharge rows (L "spin") = Except.map molOf (mapME (applyLayout spinLayout) rows) ∧
    readFuzzy rows (L "electron_density") =
      Except.map molOf (mapME (applyLayout fuzzyLayout) rows) ∧
    readFuzzy rows (L "Laplacian_electron_density") =
      Except.map molOf (mapME (applyLayout fuzzyLayout) rows) ∧
    readFuzzy rows (L "kinetic_energy_density") =
      Except.map molOf (mapME (applyLayout fuzzyLayout) rows) := by
  have hresp : ∀ l, respRow l = applyLayout respLayout l := fun l => rfl
  have hhirsh : ∀ l, hirshRow l = applyLayout hirshLayout l := fun l => rfl
  have hadch : ∀ l, adchRow l = applyLayout adchLayout l := fun l => rfl
  have hspin : ∀ l, spinRow l = applyLayout spinLayout l := fun l => rfl
  have hfuzzy : ∀ l, fuzzyRow l = applyLayout fuzzyLayout l := fun l => rfl
  refine ⟨hresp line, hhirsh line, hadch line, hspin line, hfuzzy line,
    ?_, ?_, ?_, ?_, ?_, ?_, ?_⟩
  · unfold readCharge
    rw [if_pos rfl, mapME_congr rows (fun a _ => hresp a)]
  · unfold readCharge
    rw [if_neg (by decide), if_pos rfl, mapME_congr rows (fun a _ => hhirsh a)]
  · unfold readCharge
    rw [if_neg (by decide), if_neg (by decide), if_pos rfl,
      mapME_congr rows (fun a _ => hadch a)]
  · unfold readCharge
    rw [if_neg (by decide), if_neg (by decide), if_neg (by decide), if_pos rfl,
      mapME_congr rows (fun a _ => hspin a)]
  · unfold readFuzzy
    rw [if_pos rfl, mapME_congr rows (fun a _ => hfuzzy a)]
  · unfold readFuzzy
    rw [if_neg (by decide), if_pos rfl, mapME_congr rows (fun a _ => hfuzzy a)]
  · unfold readFuzzy
    rw [if_neg (by decide), if_neg (by decide), if_pos rfl,
      mapME_congr rows (fun a _ => hfuzzy a)]

/-- C2 (amended): on a line matched by the Total-energy anchor the begin
marker `": "` is always present (so `split(': ')[1]` cannot fail), and when the
end marker `"Hartree"` is absent the extractor parses the whole remainder after
the begin marker — it yields that value when the remainder is a valid float,
and raises ValueError (it does not return the absent value) otherwise. -/
theorem C2_amended (line : List Char)
    (h1 : containsL anchorTotalEnergy line = true)
    (h2 : containsL (L "Hartree") line = false) :
    2 ≤ (splitS ": " line).length ∧
    exTotalEnergy line = (pyAt (splitS ": " line) 1) >>= floatE := by
  have hcs : containsL (L ": ") line = true := containsL_trans h1 (by decide)
  have hlen : 2 ≤ (splitS ": " line).length :=
    splitGo_len2 ':' [' '] line.length line le_rfl hcs
  refine ⟨hlen, ?_⟩
  obtain ⟨s, hs⟩ : ∃ s, (splitS ": " line).get? 1 = some s := by
    cases hg : (splitS ": " line).get? 1 with
    | some s => exact ⟨s, rfl⟩
    | none =>
      have hgl := List.get?_eq_none.mp hg
      omega
  have hsmem : s ∈ splitS ": " line := List.get?_mem hs
  have hinf : s <:+: line := splitGo_mem_sub hsmem
  have hnoH : containsL (L "Hartree") s = false := by
    cases hcH : containsL (L "Hartree") s with
    | false => rfl
    | true =>
      rw [containsL_mono hinf hcH] at h2
      exact Bool.noConfusion h2
  have hsingle : splitS "Hartree" s = [s] :=
    splitGo_single 'H' (L "artree") s.length s hnoH
  have hat : pyAt (splitS ": " line) 1 = Except.ok s := by
    unfold pyAt
    rw [hs]
  unfold exTotalEnergy
  rw [seq_ok hat, seq_ok hat]
  show (pyAt (splitS "Hartree" s) 0 >>= _) = _
  rw [hsingle]
  exact seq_ok rfl

/-- C2 counterexample: the line `" Total energy:    -76.4"` is matched by the
scalar anchor and has no end marker `"Hartree"`, yet the parse assigns
`total_energy = -76.4` instead of the absent value — refuting "missing marker
yields absent". -/
theorem C2_counterexample :
    containsL (L "Hartree") (L " Total energy:    -76.4") = false ∧
    resField (getOtherDescriptorsL [L " Total energy:    -76.4"]) DField.total_energy
      = some (DVal.q (mkRat (-382) 5)) := by
  exact ⟨by decide, by decide⟩

/-- C2 witness: the amended statement applied to the concrete line. -/
theorem C2_amended_witness :
    2 ≤ (splitS ": " (L " Total energy:    -76.4")).length ∧
    exTotalEnergy (L " Total energy:    -76.4") =
      (pyAt (splitS ": " (L " Total energy:    -76.4")) 1) >>= floatE :=
  C2_amended (L " Total energy:    -76.4") (by decide) (by decide)

/-- C8: the atom-section lookup uses first-match semantics: when the exact
text of an anchor line occurs at an earlier position `i` and again at a later
position `j`, any visit of that text positions the extraction window at the
first occurrence (`lines.index(line) + 8` for the Hirshfeld citation anchor),
so the later duplicate never contributes its own window. -/
theorem C8_first_match (lines : List (List Char)) (txt : List Char) (i j : Nat)
    (hfind : pyFindIdx txt lines = some i)
    (hj : lines.get? j = some txt)
    (hij : i < j)
    (hanc : containsL anchorCitation txt = true) :
    pyListIndex lines txt = Except.ok i ∧ i + 8 ≠ j + 8 ∧
    (∀ d d', atomStep lines d txt = Except.ok d' →
      ∃ n m, getAtomNum d = Except.ok n ∧
        readCharge (pySlice lines ((i : Int) + 8) ((i : Int) + 8 + n)) (L "Hirshfeld")
          = Except.ok m ∧
        d' = dSet d DField.Hirshfeld_charge (DVal.mol m)) := by
  have hpl : pyListIndex lines txt = Except.ok i := by
    unfold pyListIndex
    rw [hfind]
  refine ⟨hpl, by omega, ?_⟩
  intro d d' h
  unfold atomStep at h
  rw [if_pos hanc] at h
  obtain ⟨i', hi', h⟩ := bind_ok h
  rw [hpl] at hi'
  injection hi' with hii
  subst hii
  obtain ⟨n, hn, h⟩ := bind_ok h
  obtain ⟨m, hm, h⟩ := bind_ok h
  cases h
  exact ⟨n, m, hn, hm, rfl⟩

/-- C8 witness: a report with two identical citation-anchor lines. -/
theorem C8_witness :
    pyListIndex [anchorCitation, anchorCitation] anchorCitation = Except.ok 0 ∧
    0 + 8 ≠ 1 + 8 ∧
    (∀ d d', atomStep [anchorCitation, anchorCitation] d anchorCitation = Except.ok d' →
      ∃ n m, getAtomNum d = Except.ok n ∧
        readCharge (pySlice [anchorCitation, anchorCitation]
            (((0 : Nat) : Int) + 8) (((0 : Nat) : Int) + 8 + n)) (L "Hirshfeld")
          = Except.ok m ∧
        d' = dSet d DField.Hirshfeld_charge (DVal.mol m)) :=
  C8_first_match [anchorCitation, anchorCitation] anchorCitation 0 1
    (by decide) (by decide) (by decide) (by decide)

/-- C3 (amended): if the anchor condition of a descriptor field `f` holds on
no line of the report and the parse completes with a record, then field `f` of
the returned record is the explicit absent value `None` — never zero.  (The
claim's further assertion that such a parse always completes is refuted by
`C3_counterexample`.) -/
theorem C3_absent_anchor (f : DField) (lines : List (List Char)) (d : Descr)
    (h1 : ∀ l ∈ lines, trigger f l = false)
    (h2 : getOtherDescriptorsL lines = Except.ok d) :
    d f = DVal.none := by
  unfold getOtherDescriptorsL at h2
  obtain ⟨d1, hd1, h2⟩ := bind_ok h2
  obtain ⟨d2, hd2, h2⟩ := bind_ok h2
  obtain ⟨d3, hd3, h2⟩ := bind_ok h2
  obtain ⟨d4, hd4, h2⟩ := bind_ok h2
  have hdd := Except.ok.inj h2
  subst hdd
  have e1 : d1 f = DVal.none := by
    have hp := foldE_pres (P := fun l => trigger f l = false)
      (fun d d' l hl h => scalarStep_frame h hl) lines descr0 d1 h1 hd1
    rw [hp]
    rfl
  have e2 : d2 f = d1 f := by
    unfold espLoop at hd2
    by_cases hmem : f ∈ espFieldsAll
    · have hnone : ∀ p ∈ pyEnumFrom 0 lines, containsL anchorSurf p.2 = false := by
        intro p hp
        have ht := h1 p.2 (pyEnumFrom_mem 0 lines p hp)
        rwa [trigger_esp hmem] at ht
      rw [countLoop_skip (pyEnumFrom 0 lines) 0 d1 hnone] at hd2
      cases hd2
      rfl
    · exact countLoop_pres
        (fun i r dd dd' hb => espBranch_frame hb f
          (fun hm => hmem (touches_subset r f hm))) _ _ _ _ hd2
  have e3 : d3 f = d2 f :=
    foldE_pres (P := fun l => trigger f l = false)
      (fun d d' l hl h => atomStep_frame h hl) lines d2 d3 h1 hd3
  have e4 : d4 f = d3 f := by
    unfold fuzzyLoop at hd4
    by_cases hmem : f ∈ fuzzyFieldsAll
    · have hnone : ∀ p ∈ pyEnumFrom 0 lines, containsL anchorFuzzy p.2 = false := by
        intro p hp
        have ht := h1 p.2 (pyEnumFrom_mem 0 lines p hp)
        rwa [trigger_fuzzy hmem] at ht
      rw [countLoop_skip (pyEnumFrom 0 lines) 0 d3 hnone] at hd4
      cases hd4
      rfl
    · exact countLoop_pres
        (fun i r dd dd' hb => fuzzyBranch_frame hb f hmem) _ _ _ _ hd4
  rw [e4, e3, e2, e1]

/-- C3 counterexample: the anchor `" Atoms:  "` occurs on no line of the report
`[" Population of atoms"]`, yet the parse does not complete — it raises
TypeError (via the atom pass) — refuting "the parse of that report completes
without error". -/
theorem C3_counterexample :
    (∀ l ∈ [L " Population of atoms"], containsL anchorAtoms l = false) ∧
    errOf (getOtherDescriptorsL [L " Population of atoms"]) = some Err.typeError := by
  exact ⟨by decide, by decide⟩

/-- C3 witness: a one-line report triggering nothing parses to the all-`None`
record, and the Total-energy field is absent. -/
theorem C3_absent_anchor_witness : descr0 DField.total_energy = DVal.none :=
  C3_absent_anchor DField.total_energy [L "hello"] descr0 (by decide) rfl

/-- C6 (amended): parsing a report that contains an atom-indexed section
anchor but no `" Atoms:  "` scalar line always aborts with a record-level
error.  (The claim's further assertion that this is the *only* failure that
aborts a record is refuted by `C6_counterexample`.) -/
theorem C6_missing_atom_num_fatal (lines : List (List Char))
    (h1 : ∃ l ∈ lines, atomAnchorAny l = true)
    (h2 : ∀ l ∈ lines, containsL anchorAtoms l = false) :
    ∃ e, getOtherDescriptorsL lines = Except.error e := by
  cases hS : foldE scalarStep descr0 lines with
  | error e => exact ⟨e, getOther_err1 hS⟩
  | ok d1 =>
    have hn1 : d1 DField.atom_num = DVal.none := by
      have hp := foldE_pres (f := DField.atom_num)
        (P := fun l => containsL anchorAtoms l = false)
        (fun d d' l hl h => scalarStep_frame h hl) lines descr0 d1 h2 hS
      rw [hp]
      rfl
    cases hE : espLoop lines (pyEnumFrom 0 lines) 0 d1 with
    | error e => exact ⟨e, getOther_err2 hS hE⟩
    | ok d2 =>
      have hat : ∀ r, DField.atom_num ∉ touches r := by
        intro r hmem
        have hh := touches_subset r _ hmem
        simp [espFieldsAll] at hh
      have hn2 : d2 DField.atom_num = DVal.none := by
        unfold espLoop at hE
        have hp := countLoop_pres (f := DField.atom_num)
          (fun i r dd dd' hb => espBranch_frame hb DField.atom_num (hat r)) _ _ _ _ hE
        rw [hp, hn1]
      obtain ⟨e, he⟩ := atomFold_fatal lines lines d2 hn2 h1
      exact ⟨e, getOther_err3 hS hE he⟩

/-- C6 counterexample to "this is the only prerequisite failure that aborts":
a report consisting of just the surface-analysis heading contains no
atom-indexed anchor, yet the parse aborts with IndexError (missing window
lines) instead of degrading that field to an absent value. -/
theorem C6_counterexample :
    (∀ l ∈ [anchorSurf], atomAnchorAny l = false) ∧
    errOf (getOtherDescriptorsL [anchorSurf]) = some Err.indexError := by
  exact ⟨by decide, by decide⟩

/-- C6 witness: the amended statement applied to the one-line report
`[" Population of atoms"]`. -/
theorem C6_witness :
    ∃ e, getOtherDescriptorsL [L " Population of atoms"] = Except.error e :=
  C6_missing_atom_num_fatal [L " Population of atoms"] (by decide) (by decide)

/-- C1: occurrence-rank dispatch of the surface-analysis scan.  For any report
whose heading occurs `N ≥ 2` times: (i) the scan equals the rank-indexed fold
over the occurrence indices in text order (the k-th occurrence is processed
with rank k); (ii) the branch of rank `r` writes exactly the fields of its
section — on success every field of `touches r` is populated and every other
field is untouched; (iii) the sections of two distinct ranks among 1..5 are
disjoint, so no two occurrence ranks are ever attributed to the same logical
section. -/
theorem C1_occurrence_rank_dispatch (lines : List (List Char)) (N : Nat)
    (hN : 2 ≤ N) (hocc : (espOccs lines).length = N) :
    (∀ d, espLoop lines (pyEnumFrom 0 lines) 0 d =
        rankFold (espBranch lines) (espOccs lines) 0 d) ∧
    (∀ i r d d', espBranch lines i r d = Except.ok d' →
        (∀ f, f ∉ touches r → d' f = d f) ∧ (∀ f ∈ touches r, d' f ≠ DVal.none)) ∧
    (∀ r ∈ [1, 2, 3, 4, 5], ∀ r' ∈ [1, 2, 3, 4, 5], r ≠ r' →
        ∀ f ∈ touches r, f ∉ touches r') := by
  refine ⟨?_, ?_, ?_⟩
  · intro d
    unfold espLoop espOccs
    exact countLoop_eq_rankFold (pyEnumFrom 0 lines) 0 d
  · intro i r d d' h
    exact ⟨espBranch_frame h, espBranch_sets h⟩
  · decide

/-- C1 witness: a synthetic report where the anchor occurs exactly twice. -/
theorem C1_witness :
    (∀ d, espLoop [anchorSurf, anchorSurf] (pyEnumFrom 0 [anchorSurf, anchorSurf]) 0 d =
        rankFold (espBranch [anchorSurf, anchorSurf]) (espOccs [anchorSurf, anchorSurf]) 0 d) ∧
    (∀ i r d d', espBranch [anchorSurf, anchorSurf] i r d = Except.ok d' →
        (∀ f, f ∉ touches r → d' f = d f) ∧ (∀ f ∈ touches r, d' f ≠ DVal.none)) ∧
    (∀ r ∈ [1, 2, 3, 4, 5], ∀ r' ∈ [1, 2, 3, 4, 5], r ≠ r' →
        ∀ f ∈ touches r, f ∉ touches r') :=
  C1_occurrence_rank_dispatch [anchorSurf, anchorSurf] 2 (by decide) (by decide)

/-- C5 (amended): each per-atom series is internally aligned
(`len(labels) = len(values)`), and its length equals the length of the
extracted window of lines; a window reaches the full `atom_num` length
exactly when the report supplies enough lines (`pySlice` is clamped at
end-of-report).  Equality of lengths and labels *across* series therefore
holds only when the windows coincide — the parser does not enforce it, as
`C5_counterexample` shows on a successfully parsed record. -/
theorem C5_amended (rows : List (List Char)) (t : List Char) (m : Molecule)
    (lines : List (List Char)) (start n : Nat) :
    (readCharge rows t = Except.ok m → m.atoms.length = m.charges.length) ∧
    ((t = L "RESP" ∨ t = L "Hirshfeld" ∨ t = L "ADCH" ∨ t = L "spin") →
      readCharge rows t = Except.ok m →
      m.atoms.length = rows.length ∧ m.charges.length = rows.length) ∧
    (readFuzzy rows t = Except.ok m → m.atoms.length = m.charges.length) ∧
    ((t = L "electron_density" ∨ t = L "Laplacian_electron_density" ∨
        t = L "kinetic_energy_density") →
      readFuzzy rows t = Except.ok m →
      m.atoms.length = rows.length ∧ m.charges.length = rows.length) ∧
    (start + n ≤ lines.length →
      (pySlice lines (start : Int) ((start : Int) + (n : Int))).length = n) := by
  refine ⟨?_, ?_, ?_, ?_, ?_⟩
  · intro h
    unfold readCharge at h
    split_ifs at h
    · obtain ⟨ps, _, rfl⟩ := map_ok h
      simp [molOf]
    · obtain ⟨ps, _, rfl⟩ := map_ok h
      simp [molOf]
    · obtain ⟨ps, _, rfl⟩ := map_ok h
      simp [molOf]
    · obtain ⟨ps, _, rfl⟩ := map_ok h
      simp [molOf]
    · cases h
      rfl
  · intro ht h
    unfold readCharge at h
    rcases ht with rfl | rfl | rfl | rfl
    · rw [if_pos rfl] at h
      obtain ⟨ps, hps, rfl⟩ := map_ok h
      simp [molOf, mapME_ok_length hps]
    · rw [if_neg (by decide), if_pos rfl] at h
      obtain ⟨ps, hps, rfl⟩ := map_ok h
      simp [molOf, mapME_ok_length hps]
    · rw [if_neg (by decide), if_neg (by decide), if_pos rfl] at h
      obtain ⟨ps, hps, rfl⟩ := map_ok h
      simp [molOf, mapME_ok_length hps]
    · rw [if_neg (by decide), if_neg (by decide), if_neg (by decide), if_pos rfl] at h
      obtain ⟨ps, hps, rfl⟩ := map_ok h
      simp [molOf, mapME_ok_length hps]
  · intro h
    unfold readFuzzy at h
    split_ifs at h
    · obtain ⟨ps, _, rfl⟩ := map_ok h
      simp [molOf]
    · obtain ⟨ps, _, rfl⟩ := map_ok h
      simp [molOf]
    · obtain ⟨ps, _, rfl⟩ := map_ok h
      simp [molOf]
    · cases h
      rfl
  · intro ht h
    unfold readFuzzy at h
    rcases ht with rfl | rfl | rfl
    · rw [if_pos rfl] at h
      obtain ⟨ps, hps, rfl⟩ := map_ok h
      simp [molOf, mapME_ok_length hps]
    · rw [if_neg (by decide), if_pos rfl] at h
      obtain ⟨ps, hps, rfl⟩ := map_ok h
      simp [molOf, mapME_ok_length hps]
    · rw [if_neg (by decide), if_neg (by decide), if_pos rfl] at h
      obtain ⟨ps, hps, rfl⟩ := map_ok h
      simp [molOf, mapME_ok_length hps]
  · intro hle
    unfold pySlice pyNorm
    rw [if_neg (by omega : ¬((start : Int) + (n : Int) < 0)),
      if_neg (by omega : ¬((start : Int) < 0))]
    rw [List.length_drop, List.length_take]
    omega

/-- C5 counterexample: a record that parses successfully, whose spin series
has two atoms (`atom_num = 2`) but whose electron-density window is truncated
at end-of-report, so that series has only one atom: the two series differ in
length and in label sequence. -/
theorem C5_counterexample :
    resField (getOtherDescriptorsL
      [L " Atoms:  2,", L " Population of atoms", L " 1 C 1 x 0.5", L " 2 C 2 x 0.25",
       L "   Atomic space        Value  ", L "C 1 0.125"]) DField.atom_num
      = some (DVal.i 2) ∧
    resField (getOtherDescriptorsL
      [L " Atoms:  2,", L " Population of atoms", L " 1 C 1 x 0.5", L " 2 C 2 x 0.25",
       L "   Atomic space        Value  ", L "C 1 0.125"]) DField.spin_population
      = some (DVal.mol ⟨Option.none, [L "C1", L "C2"], [mkRat 1 2, mkRat 1 4]⟩) ∧
    resField (getOtherDescriptorsL
      [L " Atoms:  2,", L " Population of atoms", L " 1 C 1 x 0.5", L " 2 C 2 x 0.25",
       L "   Atomic space        Value  ", L "C 1 0.125"]) DField.electron_density
      = some (DVal.mol ⟨Option.none, [L "C1"], [mkRat 1 8]⟩) := by
  exact ⟨by decide, by decide, by decide⟩

/-- C5 witness: the amended statement applied to a one-row RESP window. -/
theorem C5_amended_witness :
    (⟨Option.none, [L "C1"], [mkRat 1 2]⟩ : Molecule).atoms.length
      = [L "C 1 0.5"].length ∧
    (⟨Option.none, [L "C1"], [mkRat 1 2]⟩ : Molecule).charges.length
      = [L "C 1 0.5"].length :=
  (C5_amended [L "C 1 0.5"] (L "RESP") ⟨Option.none, [L "C1"], [mkRat 1 2]⟩ [] 0 0).2.1
    (Or.inl rfl) rfl

/-- C7 (amended): CDFT scalar extraction matches the labeled-value grammar
`"<name>: <number> <unit-word>"`, whitespace-tolerant around the number but
case-sensitive in the name (the claim's "case-tolerant" is refuted by
`C7_counterexample`); one pattern per known descriptor name; a name without a
match yields a null value; and the exact-case line
`"Electrophilicity index:   1.234  eV"` yields `electrophilicity_index = 1.234`. -/
theorem C7_cdft_grammar :
    (∀ contents d, getCdftDescriptors contents = Except.ok d →
      (cdftSearch (L "Mulliken electronegativity") contents = none →
        d.electronegativity = none) ∧
      (cdftSearch (L "Chemical potential") contents = none →
        d.chemical_potential = none) ∧
      (cdftSearch (L "Hardness (=fundamental gap)") contents = none →
        d.chemical_hardness = none) ∧
      (cdftSearch (L "Electrophilicity index") contents = none →
        d.electrophilicity_index = none) ∧
      (cdftSearch (L "Nucleophilicity index") contents = none →
        d.nucleophilicity_index = none)) ∧
    getCdftDescriptors (L "Electrophilicity index:   1.234  eV") =
      Except.ok ⟨none, none, none, some (mkRat 617 500), none⟩ := by
  constructor
  · intro contents d h
    unfold getCdftDescriptors at h
    obtain ⟨a, ha, h⟩ := bind_ok h
    obtain ⟨b, hb, h⟩ := bind_ok h
    obtain ⟨c, hc, h⟩ := bind_ok h
    obtain ⟨e, he, h⟩ := bind_ok h
    obtain ⟨g, hg, h⟩ := bind_ok h
    have hdd := Except.ok.inj h
    subst hdd
    refine ⟨?_, ?_, ?_, ?_, ?_⟩ <;> intro hn
    · unfold findD at ha
      rw [hn] at ha
      cases ha
      rfl
    · unfold findD at hb
      rw [hn] at hb
      cases hb
      rfl
    · unfold findD at hc
      rw [hn] at hc
      cases hc
      rfl
    · unfold findD at he
      rw [hn] at he
      cases he
      rfl
    · unfold findD at hg
      rw [hn] at hg
      cases hg
      rfl
  · rfl

/-- C7 counterexample: the same line with a lowercase name does not match —
the extraction is case-sensitive, refuting "case-tolerant": the value stays
null instead of 1.234. -/
theorem C7_counterexample :
    getCdftDescriptors (L "electrophilicity index:   1.234  eV") =
      Except.ok ⟨none, none, none, none, none⟩ := rfl

/-- C7 witness: the no-match-yields-null part applied to the empty report. -/
theorem C7_witness :
    (⟨none, none, none, none, none⟩ : CdftDescr).electrophilicity_index = none :=
  (C7_cdft_grammar.1 (L "") ⟨none, none, none, none, none⟩ rfl).2.2.2.1 rfl
